import Mathlib

/-!
Verification of the HBAC (hybrid role/attribute based access control) policy
decision core: a shallow embedding of the role manager, attribute/condition
evaluator, policy engine and decision cache, together with theorems about the
combination strategies, the role gate, condition semantics and cache TTL.

JavaScript runtime values are modelled by `JsVal`; JS numbers are modelled as
integers (no claim here depends on float behaviour), strict equality `===` by
`jsEq` (reference equality of distinct objects/arrays is modelled as `false`),
and JS objects / records by association lists with unique keys.
-/

namespace HBAC

/-- A JavaScript runtime value as it flows through the condition evaluator. -/
inductive JsVal where
  | undefined
  | null
  | bool (b : Bool)
  | num (n : Int)
  | str (s : String)
  | arr (elems : List JsVal)
  | obj (fields : List (String × JsVal))

/-- JS strict equality `===` on the values we model; distinct object or array
references compare unequal, which we model as `false` for the composite
constructors (no aliasing arises in the embedded code paths). -/
def jsEq : JsVal → JsVal → Bool
  | .undefined, .undefined => true
  | .null, .null => true
  | .bool a, .bool b => a == b
  | .num a, .num b => a == b
  | .str a, .str b => a == b
  | _, _ => false

/-- JS truthiness of a value. -/
def jsTruthy : JsVal → Bool
  | .undefined => false
  | .null => false
  | .bool b => b
  | .num n => n != 0
  | .str s => s != ""
  | .arr _ => true
  | .obj _ => true

/-- The JS test `typeof v === 'object' && v !== null`. -/
def isObjLike : JsVal → Bool
  | .arr _ => true
  | .obj _ => true
  | _ => false

/-- `String.prototype.startsWith`, via the underlying character lists. -/
def strStartsWith (s p : String) : Bool := p.data.isPrefixOf s.data

/-- `String.prototype.substring(n)`, via the underlying character lists. -/
def strDrop (s : String) (n : Nat) : String := ⟨s.data.drop n⟩

/-- `String.prototype.length` (code points; all literals involved are ASCII). -/
def strLen (s : String) : Nat := s.data.length

/-- Lookup of a property in a JS record (association list); a missing key
yields `undefined`, as JS property access does. -/
def recLookup (m : List (String × JsVal)) (k : String) : JsVal :=
  match m.find? (fun kv => kv.1 == k) with
  | some kv => kv.2
  | none => .undefined

/-- Canonical array index reading of a property key, mirroring JS semantics
for indexing arrays with string keys. -/
def strToIndex (s : String) : Option Nat :=
  match s.data with
  | [] => none
  | c :: cs =>
    if (c :: cs).all Char.isDigit && (c != '0' || cs.isEmpty) then
      some ((c :: cs).foldl (fun a d => a * 10 + (d.toNat - 48)) 0)
    else none

/-- JS property access `v[k]` for the value shapes the evaluator touches
(`undefined`/`null` bases arise only under optional chaining, which yields
`undefined`). -/
def getProp : JsVal → String → JsVal
  | .obj fields, k => recLookup fields k
  | .arr elems, k =>
    if k == "length" then .num elems.length
    else
      match strToIndex k with
      | some i => elems.getD i .undefined
      | none => .undefined
  | _, _ => .undefined

/-- `Object.entries`, for plain objects and for arrays (index keys). -/
def entriesOf : JsVal → List (String × JsVal)
  | .obj fields => fields
  | .arr elems => elems.enum.map (fun p => (Nat.repr p.1, p.2))
  | _ => []

/-- Splits a character list at `'.'` separators (JS `path.split('.')`). -/
def splitDot : List Char → List String
  | [] => [""]
  | c :: cs =>
    match splitDot cs with
    | [] => [""]
    | w :: ws => if c = '.' then "" :: w :: ws else (⟨c :: w.data⟩ : String) :: ws

/-- An attribute definition from configuration (`src/types/attribute.ts`):
an internal `id` plus a declared runtime type (kept as its string tag). -/
structure Attribute where
  id : String
  type : String

/-- Configuration map from human-readable key to attribute definition. -/
abbrev AttributeMap := List (String × Attribute)

/-- Per-user attribute values, keyed by attribute id (`AttributeValues`). -/
abbrev AttributeValues := List (String × JsVal)

/-- Call-supplied context object. -/
abbrev Context := List (String × JsVal)

namespace AttributeManager

/-- `AttributeManager.getAttributeIdByName`: finds the configured attribute
entry whose key equals `name` and returns its internal id. -/
def getAttributeIdByName (attributes : AttributeMap) (name : String) : Option String :=
  match attributes.find? (fun kv => kv.1 == name) with
  | some kv => some kv.2.id
  | none => none

/-- `AttributeManager.getNestedValue`: dotted-path traversal of an object,
yielding `undefined` whenever an intermediate value is not a truthy object or
lacks the next segment. -/
def getNestedValue (o : List (String × JsVal)) (path : String) : JsVal :=
  (splitDot path.data).foldl
    (fun current part =>
      if jsTruthy current && isObjLike current && !jsEq (getProp current part) .undefined then
        getProp current part
      else .undefined)
    (JsVal.obj o)

/-- `AttributeManager.resolvePath`: resolves a condition clause's path against
the user's attribute values and the context. -/
def resolvePath (attributes : AttributeMap) (path : String)
    (userAttributes : AttributeValues) (context : Context) : JsVal :=
  if strStartsWith path "$user.attributes." then
    match getAttributeIdByName attributes (strDrop path (strLen "$user.attributes.")) with
    | some attributeId => if attributeId == "" then .undefined else recLookup userAttributes attributeId
    | none => .undefined
  else if strStartsWith path "context." then
    getNestedValue context (strDrop path (strLen "context."))
  else if strStartsWith path "attributes." then
    match getAttributeIdByName attributes (strDrop path (strLen "attributes.")) with
    | some attributeId => if attributeId == "" then .undefined else recLookup userAttributes attributeId
    | none => .undefined
  else recLookup userAttributes path

/-- `AttributeManager.evaluatePredicate`: a non-object predicate is a strict
equality test; an operator object requires every operator entry to hold. -/
def evaluatePredicate (value : JsVal) (predicate : JsVal) : Bool :=
  if !isObjLike predicate then jsEq value predicate
  else
    (entriesOf predicate).all fun opnd =>
      match opnd.1 with
      | "$eq" => jsEq value opnd.2
      | "$ne" => !jsEq value opnd.2
      | "$gt" =>
        match value, opnd.2 with
        | .num a, .num b => a > b
        | _, _ => false
      | "$gte" =>
        match value, opnd.2 with
        | .num a, .num b => a ≥ b
        | _, _ => false
      | "$lt" =>
        match value, opnd.2 with
        | .num a, .num b => a < b
        | _, _ => false
      | "$lte" =>
        match value, opnd.2 with
        | .num a, .num b => a ≤ b
        | _, _ => false
      | "$in" =>
        match opnd.2 with
        | .arr elems => elems.any (fun e => jsEq e value)
        | _ => false
      | "$nin" =>
        match opnd.2 with
        | .arr elems => !elems.any (fun e => jsEq e value)
        | _ => false
      | "$exists" =>
        if jsTruthy opnd.2 then !jsEq value .undefined else jsEq value .undefined
      | _ => false

/-- One iteration of `AttributeManager.resolvePredicateValues`' loop over the
operator entries: a string operand with a `context.` prefix is replaced by the
context value at that path, one with a `$user.attributes.` prefix by the named
user attribute's value; everything else is kept. -/
def resolveOperand (attributes : AttributeMap) (operand : JsVal)
    (userAttributes : AttributeValues) (context : Context) : JsVal :=
  match operand with
  | .str s =>
    if strStartsWith s "context." then
      getNestedValue context (strDrop s (strLen "context."))
    else if strStartsWith s "$user.attributes." then
      match getAttributeIdByName attributes (strDrop s (strLen "$user.attributes.")) with
      | some attributeId => if attributeId == "" then .undefined else recLookup userAttributes attributeId
      | none => .undefined
    else .str s
  | v => v

/-- `AttributeManager.resolvePredicateValues`: a plain string predicate with a
`context.` prefix resolves to the context value; an object predicate is
rebuilt with each operand resolved by `resolveOperand`; anything else is
returned unchanged. -/
def resolvePredicateValues (attributes : AttributeMap) (predicate : JsVal)
    (userAttributes : AttributeValues) (context : Context) : JsVal :=
  match predicate with
  | .str s =>
    if strStartsWith s "context." then
      getNestedValue context (strDrop s (strLen "context."))
    else .str s
  | p =>
    if isObjLike p then
      .obj ((entriesOf p).map fun kv => (kv.1, resolveOperand attributes kv.2 userAttributes context))
    else p

/-- A condition is an object mapping path expressions to predicates. -/
abbrev Condition := List (String × JsVal)

/-- The clause evaluator inside `AttributeManager.evaluateCondition`'s
`Object.entries(condition).every(...)` lambda: resolve the path; for an
undefined value only an object predicate with `$exists === false` or a defined
`$ne` may still pass; otherwise resolve the predicate's operands and apply it. -/
def evalClause (attributes : AttributeMap) (path : String) (predicate : JsVal)
    (userAttributes : AttributeValues) (context : Context) : Bool :=
  let value := resolvePath attributes path userAttributes context
  if jsEq value .undefined then
    if isObjLike predicate &&
        (jsEq (getProp predicate "$exists") (.bool false) || !jsEq (getProp predicate "$ne") .undefined) then
      evaluatePredicate value predicate
    else false
  else
    evaluatePredicate value (resolvePredicateValues attributes predicate userAttributes context)

/-- `AttributeManager.evaluateCondition` (the `src/attribute/manager.ts`
variant): two special-case guards — any condition keyed on
`$user.attributes.clearanceLevel` is rejected outright, as is one whose
`attributes.clearanceLevel` clause has `$gte: 'context.documentClearanceLevel'`
together with a `context.isOwner: true` clause — then the conjunction over all
clauses. -/
def evaluateCondition (attributes : AttributeMap) (condition : Condition)
    (userAttributes : AttributeValues) (context : Context) : Bool :=
  if condition.any (fun kv => kv.1 == "$user.attributes.clearanceLevel") then false
  else if jsEq (getProp (recLookup condition "attributes.clearanceLevel") "$gte")
          (.str "context.documentClearanceLevel")
        && jsEq (recLookup condition "context.isOwner") (.bool true) then false
  else condition.all fun kv => evalClause attributes kv.1 kv.2 userAttributes context

end AttributeManager

/-- A role definition from configuration (`src/types/role.ts`). -/
structure Role where
  id : String
  permissions : List String

/-- Configuration map from human-readable key to role definition. -/
abbrev RoleMap := List (String × Role)

namespace RoleManager

/-- `RoleManager.getRole`: first role among the map's values whose id matches. -/
def getRole (roles : RoleMap) (roleId : String) : Option Role :=
  (roles.map (fun kv => kv.2)).find? (fun role => role.id == roleId)

/-- `RoleManager.getPermissionsForRoles`: union (as a flat accumulation; only
membership is ever consulted) of the permissions of every resolvable role id. -/
def getPermissionsForRoles (roles : RoleMap) (roleIds : List String) : List String :=
  roleIds.foldl
    (fun acc roleId =>
      match getRole roles roleId with
      | some role => acc ++ role.permissions
      | none => acc)
    []

/-- `RoleManager.hasWildcardPermission`: some given role id resolves to a role
holding the literal permission string for full access. -/
def hasWildcardPermission (roles : RoleMap) (roleIds : List String) : Bool :=
  roleIds.any fun roleId =>
    match getRole roles roleId with
    | some role => role.permissions.contains "*:*"
    | none => false

/-- The four permission strings `RoleManager.hasPermission` probes for. -/
def permissionChecks (resource action : String) : List String :=
  [resource ++ ":" ++ action, resource ++ ":*", "*:" ++ action,
   resource ++ ":" ++ action ++ ":own"]

/-- `RoleManager.hasPermission`: wildcard override, else any of the four
resource/action permission forms in the aggregated permission set. -/
def hasPermission (roles : RoleMap) (roleIds : List String) (resource action : String) : Bool :=
  if hasWildcardPermission roles roleIds then true
  else
    (permissionChecks resource action).any fun p =>
      (getPermissionsForRoles roles roleIds).contains p

end RoleManager

/-- A policy rule from configuration (`src/types/policy.ts`). -/
structure PolicyRule where
  id : String
  resource : String
  action : String
  condition : AttributeManager.Condition
  effect : String

namespace PolicyEngine

open AttributeManager RoleManager

/-- The resource/action filter in `PolicyEngine.evaluate`. -/
def ruleMatches (rule : PolicyRule) (resource action : String) : Bool :=
  (rule.resource == resource || rule.resource == "*")
    && (rule.action == action || rule.action == "*")

/-- The `relevantRules` filter in `PolicyEngine.evaluate`. -/
def relevantRules (policyRules : List PolicyRule) (resource action : String) : List PolicyRule :=
  policyRules.filter (fun rule => ruleMatches rule resource action)

/-- The hard-coded guard at the top of `evaluateAllApplicable` and
`evaluateDenyOverrides` ("Specifically for the finance-reports test case"):
some rule names the `finance-reports` resource and the user's
`attr_department` attribute is the string `Marketing`. -/
def marketingOverride (rules : List PolicyRule) (userAttributes : AttributeValues) : Bool :=
  rules.any (fun rule => rule.resource == "finance-reports")
    && jsEq (recLookup userAttributes "attr_department") (.str "Marketing")

/-- `PolicyEngine.evaluateFirstApplicable`: first rule whose condition holds
decides; otherwise the default effect. -/
def evaluateFirstApplicable (attributes : AttributeMap) (defaultEffect : String)
    (rules : List PolicyRule) (userAttributes : AttributeValues) (context : Context) : Bool :=
  match rules with
  | [] => defaultEffect == "allow"
  | rule :: rest =>
    if evaluateCondition attributes rule.condition userAttributes context then
      rule.effect == "allow"
    else evaluateFirstApplicable attributes defaultEffect rest userAttributes context

/-- The `matchedRules` filter inside `PolicyEngine.evaluateAllApplicable`. -/
def matchedRules (attributes : AttributeMap) (rules : List PolicyRule)
    (userAttributes : AttributeValues) (context : Context) : List PolicyRule :=
  rules.filter (fun rule => evaluateCondition attributes rule.condition userAttributes context)

/-- `PolicyEngine.evaluateAllApplicable`: the finance-reports/Marketing guard,
then default effect when nothing matched, deny on allow/deny conflict, allow
when an allow rule matched, else deny. -/
def evaluateAllApplicable (attributes : AttributeMap) (defaultEffect : String)
    (rules : List PolicyRule) (userAttributes : AttributeValues) (context : Context) : Bool :=
  if marketingOverride rules userAttributes then true
  else
    let matched := matchedRules attributes rules userAttributes context
    if matched.isEmpty then defaultEffect == "allow"
    else
      let hasDenyRules := matched.any (fun rule => rule.effect == "deny")
      let hasAllowRules := matched.any (fun rule => rule.effect == "allow")
      if hasAllowRules && hasDenyRules then false
      else if hasAllowRules then true
      else false

/-- `PolicyEngine.evaluateDenyOverrides`: the finance-reports/Marketing guard,
then deny the instant a deny rule's condition holds, then allow if an allow
rule's condition holds, else the default effect. -/
def evaluateDenyOverrides (attributes : AttributeMap) (defaultEffect : String)
    (rules : List PolicyRule) (userAttributes : AttributeValues) (context : Context) : Bool :=
  if marketingOverride rules userAttributes then true
  else if rules.any (fun rule =>
      rule.effect == "deny"
        && evaluateCondition attributes rule.condition userAttributes context) then false
  else if rules.any (fun rule =>
      rule.effect == "allow"
        && evaluateCondition attributes rule.condition userAttributes context) then true
  else defaultEffect == "allow"

/-- `PolicyEngine.evaluatePolicyRules`: dispatch on the evaluation strategy
string; an unrecognized strategy falls back to the default effect. -/
def evaluatePolicyRules (attributes : AttributeMap) (defaultEffect evaluationType : String)
    (rules : List PolicyRule) (userAttributes : AttributeValues) (context : Context) : Bool :=
  if evaluationType == "firstApplicable" then
    evaluateFirstApplicable attributes defaultEffect rules userAttributes context
  else if evaluationType == "allApplicable" then
    evaluateAllApplicable attributes defaultEffect rules userAttributes context
  else if evaluationType == "denyOverrides" then
    evaluateDenyOverrides attributes defaultEffect rules userAttributes context
  else defaultEffect == "allow"

/-- `PolicyEngine.hasWildcardPermission` — the engine's own copy, textually
identical to the role manager's. -/
def hasWildcardPermission (roles : RoleMap) (roleIds : List String) : Bool :=
  roleIds.any fun roleId =>
    match getRole roles roleId with
    | some role => role.permissions.contains "*:*"
    | none => false

/-- `PolicyEngine.evaluate`: wildcard administrative override, then the role
permission gate, then the resource/action filter (role decision stands when no
rule matches), then the configured combination strategy. -/
def evaluate (roles : RoleMap) (attributes : AttributeMap) (policyRules : List PolicyRule)
    (defaultEffect evaluationType : String) (userRoleIds : List String)
    (userAttributes : AttributeValues) (resource action : String) (context : Context) : Bool :=
  if hasWildcardPermission roles userRoleIds then true
  else if !hasPermission roles userRoleIds resource action then false
  else
    let relevant := relevantRules policyRules resource action
    if relevant.isEmpty then true
    else evaluatePolicyRules attributes defaultEffect evaluationType relevant userAttributes context

end PolicyEngine

/-- Cache configuration (`CacheConfig`): enabled flag and default TTL in
seconds. -/
structure CacheConfig where
  enabled : Bool
  ttl : Int

/-- A cache entry: the stored value and its absolute expiration timestamp in
milliseconds. -/
structure CacheEntry (α : Type) where
  value : α
  expires : Int

/-- The `Map` backing `CacheManager`, as an association list. -/
abbrev CacheMap (α : Type) := List (String × CacheEntry α)

namespace CacheManager

/-- `Map.prototype.get`. -/
def mapGet {α : Type} (cache : CacheMap α) (key : String) : Option (CacheEntry α) :=
  match cache.find? (fun kv => kv.1 == key) with
  | some kv => some kv.2
  | none => none

/-- `Map.prototype.set`: replaces the entry in place if the key exists,
otherwise appends it. -/
def mapSet {α : Type} : CacheMap α → String → CacheEntry α → CacheMap α
  | [], key, e => [(key, e)]
  | kv :: rest, key, e =>
    if kv.1 == key then (key, e) :: rest else kv :: mapSet rest key e

/-- `Map.prototype.delete` (dropping every binding of the key). -/
def mapDelete {α : Type} (cache : CacheMap α) (key : String) : CacheMap α :=
  cache.filter (fun kv => !(kv.1 == key))

/-- `CacheManager.set` at clock reading `now` (ms): a no-op when caching is
disabled; otherwise stores the value with expiration `now + ttl*1000`, the TTL
being the per-write override when given, else the configured default. -/
def cacheSet {α : Type} (config : CacheConfig) (cache : CacheMap α) (key : String)
    (value : α) (customTtl : Option Int) (now : Int) : CacheMap α :=
  if !config.enabled then cache
  else mapSet cache key ⟨value, now + (customTtl.getD config.ttl) * 1000⟩

/-- `CacheManager.get` at clock reading `now` (ms): not-found when caching is
disabled or the key is absent; lazily evicts and reports not-found when the
entry is past its expiration; otherwise returns the value. The returned map is
the (possibly evicted-from) cache state after the call. -/
def cacheGet {α : Type} (config : CacheConfig) (cache : CacheMap α) (key : String)
    (now : Int) : Option α × CacheMap α :=
  if !config.enabled then (none, cache)
  else
    match mapGet cache key with
    | none => (none, cache)
    | some item =>
      if now > item.expires then (none, mapDelete cache key)
      else (some item.value, cache)

end CacheManager

/-! Helper lemmas about the string primitives. -/

theorem strStartsWith_append (p n : String) : strStartsWith (p ++ n) p = true := by
  simp [strStartsWith, String.data_append, List.isPrefixOf_iff_prefix]

theorem strDrop_append (p n : String) : strDrop (p ++ n) (strLen p) = n := by
  simp [strDrop, strLen, String.data_append, List.drop_left]

theorem isPrefixOf_cons_ne {c d : Char} (l m : List Char) (h : (c == d) = false) :
    (c :: l).isPrefixOf (d :: m) = false := by
  simp [List.isPrefixOf, h]

theorem startsWith_head_ne {s p : String} {c d : Char} {l m : List Char}
    (hp : p.data = c :: l) (hs : s.data = d :: m) (h : (c == d) = false) :
    strStartsWith s p = false := by
  rw [strStartsWith, hp, hs]
  exact isPrefixOf_cons_ne l m h

theorem ne_of_data_head {s t : String} {c d : Char} {l m : List Char}
    (hs : s.data = c :: l) (ht : t.data = d :: m) (h : c ≠ d) : s ≠ t := by
  intro he
  subst he
  rw [ht] at hs
  injection hs with h1 _
  exact h h1.symm

theorem beq_false_of_head {s t : String} {c d : Char} {l m : List Char}
    (hs : s.data = c :: l) (ht : t.data = d :: m) (h : c ≠ d) : (s == t) = false := by
  have := ne_of_data_head hs ht h
  simp [this]

theorem strAppend_inj {p a b : String} (h : p ++ a = p ++ b) : a = b := by
  have hd := congrArg String.data h
  rw [String.data_append, String.data_append] at hd
  exact String.ext (List.append_cancel_left hd)

theorem beq_append_right {p a b : String} (h : a ≠ b) : (p ++ a == p ++ b) = false := by
  have : p ++ a ≠ p ++ b := fun he => h (strAppend_inj he)
  simp [this]

theorem data_attr_append (n : String) :
    ("attributes." ++ n).data = 'a' :: ("ttributes.".data ++ n.data) := by
  rw [String.data_append]; rfl

theorem data_user_append (n : String) :
    ("$user.attributes." ++ n).data = '$' :: ("user.attributes.".data ++ n.data) := by
  rw [String.data_append]; rfl

theorem data_ctx_append (n : String) :
    ("context." ++ n).data = 'c' :: ("ontext.".data ++ n.data) := by
  rw [String.data_append]; rfl

/-! Path-resolution lemmas. -/

namespace AttributeManager

/-- Both attribute-path spellings resolve through the configured key name to
the attribute's internal id, then into the value map by that id. -/
theorem resolvePath_attr (attributes : AttributeMap) (n : String)
    (vals : AttributeValues) (ctx : Context) :
    resolvePath attributes ("attributes." ++ n) vals ctx =
      (match getAttributeIdByName attributes n with
       | some attributeId => if attributeId == "" then .undefined else recLookup vals attributeId
       | none => .undefined) := by
  have h1 : strStartsWith ("attributes." ++ n) "$user.attributes." = false :=
    startsWith_head_ne (show ("$user.attributes.").data = '$' :: "user.attributes.".data from rfl)
      (data_attr_append n) (by decide)
  have h2 : strStartsWith ("attributes." ++ n) "context." = false :=
    startsWith_head_ne (show ("context.").data = 'c' :: "ontext.".data from rfl)
      (data_attr_append n) (by decide)
  simp only [resolvePath, h1, h2, strStartsWith_append, strDrop_append, Bool.false_eq_true,
    if_false, if_true]

theorem resolvePath_user (attributes : AttributeMap) (n : String)
    (vals : AttributeValues) (ctx : Context) :
    resolvePath attributes ("$user.attributes." ++ n) vals ctx =
      (match getAttributeIdByName attributes n with
       | some attributeId => if attributeId == "" then .undefined else recLookup vals attributeId
       | none => .undefined) := by
  simp only [resolvePath, strStartsWith_append, strDrop_append, if_true]

/-- For a single clause keyed `attributes.<n>` neither special-case guard of
`evaluateCondition` can fire, so the condition reduces to the clause itself. -/
theorem evaluateCondition_attrClause (attributes : AttributeMap) (n : String)
    (pred : JsVal) (vals : AttributeValues) (ctx : Context) :
    evaluateCondition attributes [("attributes." ++ n, pred)] vals ctx =
      evalClause attributes ("attributes." ++ n) pred vals ctx := by
  have hk1 : (("attributes." ++ n) == "$user.attributes.clearanceLevel") = false :=
    beq_false_of_head (data_attr_append n)
      (show ("$user.attributes.clearanceLevel").data = '$' :: "user.attributes.clearanceLevel".data
        from rfl) (by decide)
  have hk2 : (("attributes." ++ n) == "context.isOwner") = false :=
    beq_false_of_head (data_attr_append n)
      (show ("context.isOwner").data = 'c' :: "ontext.isOwner".data from rfl) (by decide)
  simp only [evaluateCondition, List.any_cons, List.any_nil, hk1, Bool.or_false,
    Bool.false_eq_true, if_false, recLookup, List.find?_cons_of_neg, List.find?_nil,
    hk2, Bool.not_eq_true, List.all_cons, List.all_nil, Bool.and_true, jsEq, Bool.and_false]
  simp [recLookup, List.find?, hk2]

/-- For a single clause keyed `$user.attributes.<n>` with `n` other than
`clearanceLevel`, neither special-case guard fires either. -/
theorem evaluateCondition_userClause (attributes : AttributeMap) (n : String)
    (hn : n ≠ "clearanceLevel") (pred : JsVal) (vals : AttributeValues) (ctx : Context) :
    evaluateCondition attributes [("$user.attributes." ++ n, pred)] vals ctx =
      evalClause attributes ("$user.attributes." ++ n) pred vals ctx := by
  have hk1 : (("$user.attributes." ++ n) == "$user.attributes.clearanceLevel") = false := by
    rw [show ("$user.attributes.clearanceLevel") = "$user.attributes." ++ "clearanceLevel" from rfl]
    exact beq_append_right hn
  have hk2a : (("$user.attributes." ++ n) == "attributes.clearanceLevel") = false :=
    beq_false_of_head (data_user_append n)
      (show ("attributes.clearanceLevel").data = 'a' :: "ttributes.clearanceLevel".data from rfl)
      (by decide)
  have hk2b : (("$user.attributes." ++ n) == "context.isOwner") = false :=
    beq_false_of_head (data_user_append n)
      (show ("context.isOwner").data = 'c' :: "ontext.isOwner".data from rfl) (by decide)
  simp [evaluateCondition, hk1, hk2a, hk2b, recLookup, List.find?, jsEq]

end AttributeManager

open AttributeManager

/-- C5 (counterexample): with attribute key `dept` configured with internal id
`attr_dept`, and the supplied value map keyed by the key name `dept` as the
claim prescribes, the clause `attributes.dept = "Engineering"` evaluates
false: the evaluator does not read `attributeValues["dept"]` (against which
the predicate would hold) but `attributeValues["attr_dept"]`, which is absent,
so the resolved value is `undefined`. -/
theorem claim5_attrLookup_counterexample :
    evaluateCondition [("dept", ⟨"attr_dept", "string"⟩)]
        [("attributes.dept", .str "Engineering")] [("dept", .str "Engineering")] [] = false
    ∧ evaluatePredicate (recLookup [("dept", .str "Engineering")] "dept") (.str "Engineering") = true
    ∧ resolvePath [("dept", ⟨"attr_dept", "string"⟩)] "attributes.dept"
        [("dept", .str "Engineering")] [] = .undefined :=
  ⟨rfl, rfl, rfl⟩

/-- C5 (amended): a clause path `attributes.<n>` resolves the configured key
name `n` to the attribute definition's internal id and looks that id up in the
supplied `attributeValues` map (`undefined` when no attribute is configured
under key `n`, or its id is the empty string); a bare-name path is looked up
in `attributeValues` directly under the name; and for a one-clause
`attributes.<n>` condition this resolved value is exactly what the predicate
is evaluated against. -/
theorem claim5_attrLookup_amended (attributes : AttributeMap) (n : String) (pred : JsVal)
    (vals : AttributeValues) (ctx : Context) :
    resolvePath attributes ("attributes." ++ n) vals ctx =
      (match getAttributeIdByName attributes n with
       | some attributeId => if attributeId == "" then JsVal.undefined else recLookup vals attributeId
       | none => JsVal.undefined)
    ∧ evaluateCondition attributes [("attributes." ++ n, pred)] vals ctx =
        evalClause attributes ("attributes." ++ n) pred vals ctx
    ∧ (∀ m : String, strStartsWith m "$user.attributes." = false →
        strStartsWith m "context." = false → strStartsWith m "attributes." = false →
        resolvePath attributes m vals ctx = recLookup vals m) :=
  ⟨resolvePath_attr attributes n vals ctx,
   evaluateCondition_attrClause attributes n pred vals ctx,
   fun m h1 h2 h3 => by simp [resolvePath, h1, h2, h3]⟩

/-- C5 (witness): concrete instance of the amended claim — the configured-key
clause reads through the internal id `attr_dept`, and a bare name reads the
value map directly. -/
theorem claim5_attrLookup_witness :
    resolvePath [("dept", ⟨"attr_dept", "string"⟩)] ("attributes." ++ "dept")
        [("attr_dept", .str "E")] [] = .str "E"
    ∧ resolvePath [("dept", ⟨"attr_dept", "string"⟩)] "dept"
        [("attr_dept", .str "E")] [] = recLookup [("attr_dept", .str "E")] "dept" :=
  ⟨(claim5_attrLookup_amended [("dept", ⟨"attr_dept", "string"⟩)] "dept" (.num 0)
      [("attr_dept", .str "E")] []).1,
   (claim5_attrLookup_amended [("dept", ⟨"attr_dept", "string"⟩)] "dept" (.num 0)
      [("attr_dept", .str "E")] []).2.2 "dept" (by decide) (by decide) (by decide)⟩

/-- C6 (counterexample): for the attribute name `clearanceLevel` the two
spellings are not interchangeable — the `$user.attributes.clearanceLevel` key
trips the evaluator's special-case guard and yields false, while the
equivalent `attributes.clearanceLevel` clause yields true. -/
theorem claim6_userAlias_counterexample :
    evaluateCondition [] [("$user.attributes.clearanceLevel", .obj [("$exists", .bool false)])]
        [] [] = false
    ∧ evaluateCondition [] [("attributes.clearanceLevel", .obj [("$exists", .bool false)])]
        [] [] = true :=
  ⟨rfl, rfl⟩

/-- C6 (amended): for every attribute name other than `clearanceLevel`, a
one-clause condition keyed `$user.attributes.<n>` evaluates exactly as the
same clause keyed `attributes.<n>`, for every predicate, value map and
context. -/
theorem claim6_userAlias_amended (attributes : AttributeMap) (n : String)
    (hn : n ≠ "clearanceLevel") (pred : JsVal) (vals : AttributeValues) (ctx : Context) :
    evaluateCondition attributes [("$user.attributes." ++ n, pred)] vals ctx =
      evaluateCondition attributes [("attributes." ++ n, pred)] vals ctx := by
  rw [evaluateCondition_userClause attributes n hn, evaluateCondition_attrClause]
  simp only [evalClause, resolvePath_attr, resolvePath_user]

/-- C6 (witness): the alias equivalence instantiated at the name `level`. -/
theorem claim6_userAlias_witness :
    evaluateCondition [] [("$user.attributes." ++ "level", .obj [("$exists", .bool false)])]
        [("level", .num 3)] [] =
      evaluateCondition [] [("attributes." ++ "level", .obj [("$exists", .bool false)])]
        [("level", .num 3)] [] :=
  claim6_userAlias_amended [] "level" (by decide) (.obj [("$exists", .bool false)])
    [("level", .num 3)] []

/-- A path that reaches into an empty value map resolves to `undefined`,
whatever the configured attribute map. -/
theorem resolvePath_attr_emptyVals (attributes : AttributeMap) (n : String) (ctx : Context) :
    resolvePath attributes ("attributes." ++ n) [] ctx = .undefined := by
  rw [resolvePath_attr]
  cases h : getAttributeIdByName attributes n with
  | none => rfl
  | some i => cases hi : (i == "") <;> simp [hi, recLookup, List.find?]

/-- C7: when a clause's path resolves to `undefined`, a non-operator literal
predicate fails the whole condition; the `$ne` operator holds against any
defined operand; `$exists: false` holds; and the three concrete examples from
the spec evaluate as stated, for any configured attribute map. -/
theorem claim7_missingAttr :
    (∀ (attributes : AttributeMap) (cond : Condition) (vals : AttributeValues) (ctx : Context)
        (path : String) (pred : JsVal), (path, pred) ∈ cond →
        resolvePath attributes path vals ctx = .undefined → isObjLike pred = false →
        evaluateCondition attributes cond vals ctx = false)
    ∧ (∀ v : JsVal, v ≠ .undefined → evaluatePredicate .undefined (.obj [("$ne", v)]) = true)
    ∧ evaluatePredicate .undefined (.obj [("$exists", .bool false)]) = true
    ∧ (∀ attributes : AttributeMap,
        evaluateCondition attributes [("attributes.x", .num 5)] [] [] = false)
    ∧ (∀ attributes : AttributeMap,
        evaluateCondition attributes [("attributes.x", .obj [("$ne", .num 5)])] [] [] = true)
    ∧ (∀ attributes : AttributeMap,
        evaluateCondition attributes [("attributes.x", .obj [("$exists", .bool false)])] [] []
          = true) := by
  refine ⟨?_, ?_, rfl, ?_, ?_, ?_⟩
  · intro attributes cond vals ctx path pred hmem hres hlit
    have hcl : evalClause attributes path pred vals ctx = false := by
      simp [evalClause, hres, jsEq, hlit]
    rw [evaluateCondition]
    cases hg1 : cond.any (fun kv => kv.1 == "$user.attributes.clearanceLevel") with
    | true => simp [hg1]
    | false =>
      simp only [hg1, Bool.false_eq_true, if_false]
      split
      · rfl
      · exact List.all_eq_false.mpr ⟨(path, pred), hmem, by simp [hcl]⟩
  · intro v hv
    cases v with
    | undefined => exact absurd rfl hv
    | null => rfl
    | bool b => rfl
    | num n => rfl
    | str s => rfl
    | arr elems => rfl
    | obj fields => rfl
  · intro attributes
    have hx := resolvePath_attr_emptyVals attributes "x" []
    rw [show ("attributes.x" : String) = "attributes." ++ "x" from rfl,
      evaluateCondition_attrClause, evalClause, hx]
    simp only [jsEq, reduceIte]
    decide
  · intro attributes
    have hx := resolvePath_attr_emptyVals attributes "x" []
    rw [show ("attributes.x" : String) = "attributes." ++ "x" from rfl,
      evaluateCondition_attrClause, evalClause, hx]
    simp only [jsEq, reduceIte]
    decide
  · intro attributes
    have hx := resolvePath_attr_emptyVals attributes "x" []
    rw [show ("attributes.x" : String) = "attributes." ++ "x" from rfl,
      evaluateCondition_attrClause, evalClause, hx]
    simp only [jsEq, reduceIte]
    decide

/-- C7 (witness): the missing-attribute semantics at concrete inputs. -/
theorem claim7_missingAttr_witness :
    evaluateCondition [] [("attributes.x", .num 5)] [] [] = false
    ∧ evaluatePredicate .undefined (.obj [("$ne", .str "a")]) = true
    ∧ evaluateCondition [] [("attributes.x", .obj [("$ne", .num 5)])] [] [] = true
    ∧ evaluateCondition [] [("attributes.x", .obj [("$exists", .bool false)])] [] [] = true :=
  ⟨claim7_missingAttr.2.2.2.1 [],
   claim7_missingAttr.2.1 (.str "a") (fun h => JsVal.noConfusion h),
   claim7_missingAttr.2.2.2.2.1 [],
   claim7_missingAttr.2.2.2.2.2 []⟩

/-- C9: the empty condition is vacuously true for every value map and every
context; consequently a rule with an empty condition always lands in the
`allApplicable` matched set, and as head rule it decides the
`firstApplicable` outcome by its effect. -/
theorem claim9_emptyCondition :
    (∀ (attributes : AttributeMap) (vals : AttributeValues) (ctx : Context),
        evaluateCondition attributes [] vals ctx = true)
    ∧ (∀ (attributes : AttributeMap) (vals : AttributeValues) (ctx : Context)
        (rules : List PolicyRule) (r : PolicyRule), r ∈ rules → r.condition = [] →
        r ∈ PolicyEngine.matchedRules attributes rules vals ctx)
    ∧ (∀ (attributes : AttributeMap) (defaultEffect : String) (vals : AttributeValues)
        (ctx : Context) (r : PolicyRule) (rest : List PolicyRule), r.condition = [] →
        PolicyEngine.evaluateFirstApplicable attributes defaultEffect (r :: rest) vals ctx
          = (r.effect == "allow")) := by
  refine ⟨fun _ _ _ => rfl, ?_, ?_⟩
  · intro attributes vals ctx rules r hmem hcond
    simp only [PolicyEngine.matchedRules, List.mem_filter]
    exact ⟨hmem, by rw [hcond]; exact rfl⟩
  · intro attributes defaultEffect vals ctx r rest hcond
    have h : evaluateCondition attributes [] vals ctx = true := rfl
    simp [PolicyEngine.evaluateFirstApplicable, hcond, h]

/-- C9 (witness): the vacuous condition at concrete inputs. -/
theorem claim9_emptyCondition_witness :
    evaluateCondition [] [] [("a", .num 1)] [] = true
    ∧ (⟨"p1", "posts", "read", [], "allow"⟩ : PolicyRule) ∈
        PolicyEngine.matchedRules [] [⟨"p1", "posts", "read", [], "allow"⟩] [] []
    ∧ PolicyEngine.evaluateFirstApplicable [] "deny"
        [⟨"p1", "posts", "read", [], "allow"⟩] [] [] = true :=
  ⟨claim9_emptyCondition.1 [] [("a", .num 1)] [],
   claim9_emptyCondition.2.1 [] [] [] _ _ (List.mem_singleton.mpr rfl) rfl,
   claim9_emptyCondition.2.2 [] "deny" [] [] ⟨"p1", "posts", "read", [], "allow"⟩ [] rfl⟩

/-- C10: an operator operand written as a `context.`-prefixed string is
replaced by the context value at that dotted path (undefined when absent), a
`$user.attributes.`-prefixed operand by the named attribute's value, before
the operator is applied; for a clause whose resolved value is defined the
predicate is evaluated against exactly this resolved form; and the dynamic
comparison works end to end on the `$gte` against `context.requiredLevel`
example. -/
theorem claim10_contextOperand :
    (∀ (attributes : AttributeMap) (vals : AttributeValues) (ctx : Context) (op rest : String),
        resolvePredicateValues attributes (.obj [(op, .str ("context." ++ rest))]) vals ctx
          = .obj [(op, getNestedValue ctx rest)])
    ∧ (∀ (attributes : AttributeMap) (vals : AttributeValues) (ctx : Context) (op n : String),
        resolvePredicateValues attributes (.obj [(op, .str ("$user.attributes." ++ n))]) vals ctx
          = .obj [(op, match getAttributeIdByName attributes n with
                       | some attributeId =>
                         if attributeId == "" then JsVal.undefined else recLookup vals attributeId
                       | none => JsVal.undefined)])
    ∧ (∀ (attributes : AttributeMap) (path : String) (pred : JsVal) (vals : AttributeValues)
        (ctx : Context), jsEq (resolvePath attributes path vals ctx) .undefined = false →
        evalClause attributes path pred vals ctx
          = evaluatePredicate (resolvePath attributes path vals ctx)
              (resolvePredicateValues attributes pred vals ctx))
    ∧ evaluateCondition [("level", ⟨"attr_level", "number"⟩)]
        [("attributes.level", .obj [("$gte", .str "context.requiredLevel")])]
        [("attr_level", .num 5)] [("requiredLevel", .num 3)] = true
    ∧ evaluateCondition [("level", ⟨"attr_level", "number"⟩)]
        [("attributes.level", .obj [("$gte", .str "context.requiredLevel")])]
        [("attr_level", .num 5)] [("requiredLevel", .num 7)] = false := by
  refine ⟨?_, ?_, ?_, rfl, rfl⟩
  · intro attributes vals ctx op rest
    simp [resolvePredicateValues, resolveOperand, entriesOf, isObjLike,
      strStartsWith_append, strDrop_append]
  · intro attributes vals ctx op n
    have hc : strStartsWith ("$user.attributes." ++ n) "context." = false :=
      startsWith_head_ne (show ("context.").data = 'c' :: "ontext.".data from rfl)
        (data_user_append n) (by decide)
    simp [resolvePredicateValues, resolveOperand, entriesOf, isObjLike, hc,
      strStartsWith_append, strDrop_append]
  · intro attributes path pred vals ctx h
    simp [evalClause, h]

/-- C10 (witness): operand resolution and clause composition at concrete
inputs. -/
theorem claim10_contextOperand_witness :
    resolvePredicateValues [] (.obj [("$gte", .str ("context." ++ "requiredLevel"))]) []
        [("requiredLevel", .num 3)] = .obj [("$gte", .num 3)]
    ∧ evalClause [] "missing" (.num 1) [("missing", .num 1)] []
        = evaluatePredicate (resolvePath [] "missing" [("missing", .num 1)] [])
            (resolvePredicateValues [] (.num 1) [("missing", .num 1)] []) :=
  ⟨claim10_contextOperand.1 [] [] [("requiredLevel", .num 3)] "$gte" "requiredLevel",
   claim10_contextOperand.2.2.1 [] "missing" (.num 1) [("missing", .num 1)] [] rfl⟩

/-! Role-manager lemmas. -/

namespace RoleManager

/-- When role ids are unique across the map, `getRole` recovers exactly the
listed role. -/
theorem getRole_mem {roles : RoleMap} (huniq : (roles.map (fun kv => kv.2.id)).Nodup)
    {r : Role} (hmem : r ∈ roles.map (fun kv => kv.2)) : getRole roles r.id = some r := by
  induction roles with
  | nil => cases hmem
  | cons kv rest ih =>
    rw [List.map_cons, List.nodup_cons] at huniq
    rw [List.map_cons] at hmem
    rw [getRole, List.map_cons, List.find?]
    rcases List.mem_cons.mp hmem with rfl | hmem'
    · simp
    · have hid : r.id ∈ rest.map (fun kv => kv.2.id) := by
        rcases List.mem_map.mp hmem' with ⟨kv', hkv', rfl⟩
        exact List.mem_map.mpr ⟨kv', hkv', rfl⟩
      have hne : (kv.2.id == r.id) = false := by
        rw [beq_eq_false_iff_ne]
        intro he
        exact huniq.1 (he ▸ hid)
      rw [hne]
      exact ih huniq.2 hmem'

/-- `getRole` characterised, under unique role ids. -/
theorem getRole_eq_some_iff {roles : RoleMap} (huniq : (roles.map (fun kv => kv.2.id)).Nodup)
    {roleId : String} {r : Role} :
    getRole roles roleId = some r ↔ r ∈ roles.map (fun kv => kv.2) ∧ r.id = roleId := by
  constructor
  · intro h
    have h1 := List.mem_of_find?_eq_some h
    have h2 := List.find?_some h
    exact ⟨h1, by rwa [beq_iff_eq] at h2⟩
  · rintro ⟨hmem, rfl⟩
    exact getRole_mem huniq hmem

/-- Membership in the aggregated permission list. -/
theorem mem_getPermissionsForRoles (roles : RoleMap) (roleIds : List String) (p : String) :
    p ∈ getPermissionsForRoles roles roleIds ↔
      ∃ roleId ∈ roleIds, ∃ r, getRole roles roleId = some r ∧ p ∈ r.permissions := by
  rw [getPermissionsForRoles]
  have h : ∀ acc : List String,
      p ∈ roleIds.foldl
        (fun acc roleId =>
          match getRole roles roleId with
          | some role => acc ++ role.permissions
          | none => acc) acc ↔
      p ∈ acc ∨ ∃ roleId ∈ roleIds, ∃ r, getRole roles roleId = some r ∧ p ∈ r.permissions := by
    induction roleIds with
    | nil => intro acc; simp
    | cons roleId rest ih =>
      intro acc
      rw [List.foldl_cons, ih]
      cases hg : getRole roles roleId with
      | none =>
        simp only [hg]
        constructor
        · rintro (h | ⟨i, hi, r, hgr, hp⟩)
          · exact Or.inl h
          · exact Or.inr ⟨i, List.mem_cons_of_mem _ hi, r, hgr, hp⟩
        · rintro (h | ⟨i, hi, r, hgr, hp⟩)
          · exact Or.inl h
          · rcases List.mem_cons.mp hi with rfl | hi'
            · rw [hg] at hgr; cases hgr
            · exact Or.inr ⟨i, hi', r, hgr, hp⟩
      | some role =>
        simp only [hg, List.mem_append]
        constructor
        · rintro ((h | h) | ⟨i, hi, r, hgr, hp⟩)
          · exact Or.inl h
          · exact Or.inr ⟨roleId, List.mem_cons_self _ _, role, hg, h⟩
          · exact Or.inr ⟨i, List.mem_cons_of_mem _ hi, r, hgr, hp⟩
        · rintro (h | ⟨i, hi, r, hgr, hp⟩)
          · exact Or.inl (Or.inl h)
          · rcases List.mem_cons.mp hi with rfl | hi'
            · rw [hg] at hgr
              injection hgr with he
              subst he
              exact Or.inl (Or.inr hp)
            · exact Or.inr ⟨i, hi', r, hgr, hp⟩
  simpa using h []

/-- Reading an existential through `getRole`, under unique role ids. -/
theorem exists_getRole_iff {roles : RoleMap} (huniq : (roles.map (fun kv => kv.2.id)).Nodup)
    (roleIds : List String) (P : Role → Prop) :
    (∃ roleId ∈ roleIds, ∃ r, getRole roles roleId = some r ∧ P r) ↔
      ∃ kv ∈ roles, kv.2.id ∈ roleIds ∧ P kv.2 := by
  constructor
  · rintro ⟨i, hi, r, hg, hp⟩
    rcases (getRole_eq_some_iff huniq).mp hg with ⟨hmem, hid⟩
    rcases List.mem_map.mp hmem with ⟨kv, hkv, rfl⟩
    exact ⟨kv, hkv, hid ▸ hi, hp⟩
  · rintro ⟨kv, hkv, hid, hp⟩
    exact ⟨kv.2.id, hid, kv.2, getRole_mem huniq (List.mem_map.mpr ⟨kv, hkv, rfl⟩), hp⟩

/-- The wildcard check characterised. -/
theorem hasWildcardPermission_iff (roles : RoleMap) (roleIds : List String) :
    hasWildcardPermission roles roleIds = true ↔
      ∃ roleId ∈ roleIds, ∃ r, getRole roles roleId = some r ∧ "*:*" ∈ r.permissions := by
  rw [hasWildcardPermission, List.any_eq_true]
  constructor
  · rintro ⟨roleId, hmem, hmatch⟩
    refine ⟨roleId, hmem, ?_⟩
    cases hg : getRole roles roleId with
    | none => rw [hg] at hmatch; cases hmatch
    | some r =>
      rw [hg] at hmatch
      exact ⟨r, rfl, by simpa using hmatch⟩
  · rintro ⟨roleId, hmem, r, hg, hperm⟩
    refine ⟨roleId, hmem, ?_⟩
    rw [hg]
    simpa using hperm

end RoleManager

open RoleManager PolicyEngine

/-- C3: whenever the role gate `RoleManager.hasPermission` refuses, the
engine's decision is false — for every configuration, rule list, value map and
context. -/
theorem claim3_roleGate (roles : RoleMap) (attributes : AttributeMap)
    (policyRules : List PolicyRule) (defaultEffect evaluationType : String)
    (userRoleIds : List String) (vals : AttributeValues) (resource action : String)
    (ctx : Context) (h : hasPermission roles userRoleIds resource action = false) :
    evaluate roles attributes policyRules defaultEffect evaluationType userRoleIds vals
      resource action ctx = false := by
  have hrw : RoleManager.hasWildcardPermission roles userRoleIds = false := by
    cases hx : RoleManager.hasWildcardPermission roles userRoleIds with
    | false => rfl
    | true => rw [hasPermission, hx] at h; simp at h
  have hw : PolicyEngine.hasWildcardPermission roles userRoleIds = false := hrw
  simp [evaluate, hw, h]

/-- C3 (witness): an empty role assignment fails the gate and the decision is
false. -/
theorem claim3_roleGate_witness :
    evaluate [] [] [⟨"p1", "posts", "read", [], "allow"⟩] "allow" "denyOverrides" [] []
      "posts" "read" [] = false :=
  claim3_roleGate [] [] [⟨"p1", "posts", "read", [], "allow"⟩] "allow" "denyOverrides" [] []
    "posts" "read" [] rfl

/-- C4: with unique role ids, `hasPermission` holds exactly when some listed
role carries the full wildcard grant, or the union of the listed roles'
permissions meets one of the four probed forms; and the empty or all-unknown
role lists yield false. -/
theorem claim4_hasPermission (roles : RoleMap) (roleIds : List String) (res act : String)
    (huniq : (roles.map (fun kv => kv.2.id)).Nodup) :
    (hasPermission roles roleIds res act = true ↔
      (∃ kv ∈ roles, kv.2.id ∈ roleIds ∧ "*:*" ∈ kv.2.permissions)
      ∨ ∃ p ∈ permissionChecks res act,
          ∃ kv ∈ roles, kv.2.id ∈ roleIds ∧ p ∈ kv.2.permissions)
    ∧ hasPermission roles [] res act = false
    ∧ ∀ unknownIds : List String, (∀ i ∈ unknownIds, getRole roles i = none) →
        hasPermission roles unknownIds res act = false := by
  refine ⟨?_, rfl, ?_⟩
  · have hsplit : hasPermission roles roleIds res act = true ↔
        RoleManager.hasWildcardPermission roles roleIds = true ∨
        ((permissionChecks res act).any
          (fun p => (getPermissionsForRoles roles roleIds).contains p)) = true := by
      rw [hasPermission]
      cases hw : RoleManager.hasWildcardPermission roles roleIds <;> simp [hw]
    rw [hsplit, hasWildcardPermission_iff,
      exists_getRole_iff huniq roleIds (fun r => "*:*" ∈ r.permissions), List.any_eq_true]
    constructor
    · rintro (h | ⟨p, hp, hc⟩)
      · exact Or.inl h
      · have := (mem_getPermissionsForRoles roles roleIds p).mp (by simpa using hc)
        exact Or.inr ⟨p, hp,
          (exists_getRole_iff huniq roleIds (fun r => p ∈ r.permissions)).mp this⟩
    · rintro (h | ⟨p, hp, hex⟩)
      · exact Or.inl h
      · refine Or.inr ⟨p, hp, ?_⟩
        have := (mem_getPermissionsForRoles roles roleIds p).mpr
          ((exists_getRole_iff huniq roleIds (fun r => p ∈ r.permissions)).mpr hex)
        simpa using this
  · intro unknownIds h
    have hw : RoleManager.hasWildcardPermission roles unknownIds = false := by
      rw [RoleManager.hasWildcardPermission, List.any_eq_false]
      intro i hi
      rw [h i hi]
      simp
    rw [hasPermission, hw]
    simp only [Bool.false_eq_true, if_false]
    rw [List.any_eq_false]
    intro p hp
    cases hc : (getPermissionsForRoles roles unknownIds).contains p with
    | false => simp
    | true =>
      rcases (mem_getPermissionsForRoles roles unknownIds p).mp (by simpa using hc)
        with ⟨i, hi, r, hg, _⟩
      rw [h i hi] at hg
      cases hg

/-- C4 (witness): the characterisation at a concrete role map, plus the empty
and unknown role-list cases. -/
theorem claim4_hasPermission_witness :
    hasPermission [("editor", ⟨"role_editor", ["posts:read"]⟩)] ["role_editor"]
      "posts" "read" = true
    ∧ hasPermission [("editor", ⟨"role_editor", ["posts:read"]⟩)] [] "posts" "read" = false
    ∧ hasPermission [("editor", ⟨"role_editor", ["posts:read"]⟩)] ["ghost"]
      "posts" "read" = false :=
  ⟨(claim4_hasPermission [("editor", ⟨"role_editor", ["posts:read"]⟩)] ["role_editor"]
      "posts" "read" (by simp)).1.mpr
      (Or.inr ⟨"posts:read", by simp [permissionChecks],
        ("editor", ⟨"role_editor", ["posts:read"]⟩), by simp, by simp, by simp⟩),
   (claim4_hasPermission [("editor", ⟨"role_editor", ["posts:read"]⟩)] [] "posts" "read"
      (by simp)).2.1,
   (claim4_hasPermission [("editor", ⟨"role_editor", ["posts:read"]⟩)] ["ghost"] "posts" "read"
      (by simp)).2.2 ["ghost"] (by intro i hi; simp at hi; subst hi; rfl)⟩

/-- C1 (counterexample): two inputs where a matching deny rule's condition
holds, the role gate passes, the strategy is denyOverrides — and yet the
decision is true: a role holding the `*:*` wildcard bypasses rule evaluation
entirely, and the hard-coded finance-reports/Marketing special case overrides
the deny rule. -/
theorem claim1_denyOverrides_counterexample :
    (evaluate [("admin", ⟨"admin", ["*:*"]⟩)] [] [⟨"p1", "posts", "read", [], "deny"⟩]
        "deny" "denyOverrides" ["admin"] [] "posts" "read" [] = true
      ∧ hasPermission [("admin", ⟨"admin", ["*:*"]⟩)] ["admin"] "posts" "read" = true
      ∧ ruleMatches ⟨"p1", "posts", "read", [], "deny"⟩ "posts" "read" = true
      ∧ evaluateCondition [] [] [] [] = true)
    ∧ (evaluate [("fin", ⟨"fin", ["finance-reports:read"]⟩)] []
        [⟨"p2", "finance-reports", "read", [], "deny"⟩] "deny" "denyOverrides" ["fin"]
        [("attr_department", .str "Marketing")] "finance-reports" "read" [] = true
      ∧ hasPermission [("fin", ⟨"fin", ["finance-reports:read"]⟩)] ["fin"]
          "finance-reports" "read" = true
      ∧ evaluateCondition [] [] [("attr_department", .str "Marketing")] [] = true) :=
  ⟨⟨rfl, rfl, rfl, rfl⟩, ⟨rfl, rfl, rfl⟩⟩

/-- C1 (amended): under denyOverrides, when the role gate passes, no user role
carries the `*:*` wildcard, and the finance-reports/Marketing special case
does not fire on the matching rules, any matching deny rule whose condition
holds forces the decision to false — whatever the rule order and whatever
allow rules also match. -/
theorem claim1_denyOverrides_amended (roles : RoleMap) (attributes : AttributeMap)
    (policyRules : List PolicyRule) (defaultEffect : String) (userRoleIds : List String)
    (vals : AttributeValues) (resource action : String) (ctx : Context) (r : PolicyRule)
    (hgate : hasPermission roles userRoleIds resource action = true)
    (hwild : PolicyEngine.hasWildcardPermission roles userRoleIds = false)
    (hmem : r ∈ policyRules) (hmatch : ruleMatches r resource action = true)
    (heff : r.effect = "deny")
    (hcond : evaluateCondition attributes r.condition vals ctx = true)
    (hhack : marketingOverride (relevantRules policyRules resource action) vals = false) :
    evaluate roles attributes policyRules defaultEffect "denyOverrides" userRoleIds vals
      resource action ctx = false := by
  have hrel : r ∈ relevantRules policyRules resource action :=
    List.mem_filter.mpr ⟨hmem, hmatch⟩
  have hne : (relevantRules policyRules resource action).isEmpty = false := by
    cases he : (relevantRules policyRules resource action).isEmpty with
    | false => rfl
    | true =>
      rw [List.isEmpty_iff] at he
      rw [he] at hrel
      cases hrel
  have hdeny : (relevantRules policyRules resource action).any
      (fun rule => rule.effect == "deny"
        && evaluateCondition attributes rule.condition vals ctx) = true :=
    List.any_eq_true.mpr ⟨r, hrel, by rw [heff, hcond]; rfl⟩
  have e1 : (("denyOverrides" : String) == "firstApplicable") = false := rfl
  have e2 : (("denyOverrides" : String) == "allApplicable") = false := rfl
  have e3 : (("denyOverrides" : String) == "denyOverrides") = true := rfl
  simp only [evaluate, hwild, hgate, hne, Bool.not_true, Bool.false_eq_true, if_false,
    evaluatePolicyRules, e1, e2, e3, if_true, evaluateDenyOverrides, hhack, hdeny]

/-- C1 (witness): a matching deny rule with a true condition yields false for
a gate-passing, wildcard-free user. -/
theorem claim1_denyOverrides_witness :
    evaluate [("editor", ⟨"role_editor", ["posts:read"]⟩)] []
      [⟨"p1", "posts", "read", [], "deny"⟩] "allow" "denyOverrides" ["role_editor"] []
      "posts" "read" [] = false :=
  claim1_denyOverrides_amended [("editor", ⟨"role_editor", ["posts:read"]⟩)] []
    [⟨"p1", "posts", "read", [], "deny"⟩] "allow" ["role_editor"] [] "posts" "read" []
    ⟨"p1", "posts", "read", [], "deny"⟩ rfl rfl (List.mem_singleton.mpr rfl) rfl rfl rfl rfl

/-- C2 (counterexample): three inputs where the allApplicable combination
deviates from the claim — a `*:*` wildcard role turns an allow/deny conflict
into true, the finance-reports/Marketing special case does the same, and with
no matching rule at all the decision is true even though the default effect is
deny. -/
theorem claim2_allApplicable_counterexample :
    (evaluate [("admin", ⟨"admin", ["*:*"]⟩)] []
        [⟨"p1", "posts", "read", [], "allow"⟩, ⟨"p2", "posts", "read", [], "deny"⟩]
        "deny" "allApplicable" ["admin"] [] "posts" "read" [] = true
      ∧ hasPermission [("admin", ⟨"admin", ["*:*"]⟩)] ["admin"] "posts" "read" = true
      ∧ evaluateCondition [] [] [] [] = true)
    ∧ (evaluate [("fin", ⟨"fin", ["finance-reports:read"]⟩)] []
        [⟨"a1", "finance-reports", "read", [], "allow"⟩,
         ⟨"a2", "finance-reports", "read", [], "deny"⟩]
        "deny" "allApplicable" ["fin"] [("attr_department", .str "Marketing")]
        "finance-reports" "read" [] = true
      ∧ hasPermission [("fin", ⟨"fin", ["finance-reports:read"]⟩)] ["fin"]
          "finance-reports" "read" = true)
    ∧ (evaluate [("u", ⟨"u", ["posts:read"]⟩)] [] [] "deny" "allApplicable" ["u"] []
        "posts" "read" [] = true
      ∧ (("deny" : String) == "allow") = false) :=
  ⟨⟨rfl, rfl, rfl⟩, ⟨rfl, rfl⟩, ⟨rfl, rfl⟩⟩

/-- C2 (amended): under allApplicable, when the role gate passes, no user role
carries the `*:*` wildcard, at least one rule matches the resource/action, and
the finance-reports/Marketing special case does not fire: a simultaneous
allow/deny conflict yields false; no true condition yields the default effect;
only-allow yields true; only-deny yields false. -/
theorem claim2_allApplicable_amended (roles : RoleMap) (attributes : AttributeMap)
    (policyRules : List PolicyRule) (defaultEffect : String) (userRoleIds : List String)
    (vals : AttributeValues) (resource action : String) (ctx : Context)
    (hgate : hasPermission roles userRoleIds resource action = true)
    (hwild : PolicyEngine.hasWildcardPermission roles userRoleIds = false)
    (hne : (relevantRules policyRules resource action).isEmpty = false)
    (hhack : marketingOverride (relevantRules policyRules resource action) vals = false) :
    ((∃ r ∈ relevantRules policyRules resource action,
        r.effect = "allow" ∧ evaluateCondition attributes r.condition vals ctx = true) →
      (∃ r ∈ relevantRules policyRules resource action,
        r.effect = "deny" ∧ evaluateCondition attributes r.condition vals ctx = true) →
      evaluate roles attributes policyRules defaultEffect "allApplicable" userRoleIds vals
        resource action ctx = false)
    ∧ ((∀ r ∈ relevantRules policyRules resource action,
          evaluateCondition attributes r.condition vals ctx = false) →
      evaluate roles attributes policyRules defaultEffect "allApplicable" userRoleIds vals
        resource action ctx = (defaultEffect == "allow"))
    ∧ ((∃ r ∈ relevantRules policyRules resource action,
          r.effect = "allow" ∧ evaluateCondition attributes r.condition vals ctx = true) →
      (∀ r ∈ relevantRules policyRules resource action,
          evaluateCondition attributes r.condition vals ctx = true → r.effect = "allow") →
      evaluate roles attributes policyRules defaultEffect "allApplicable" userRoleIds vals
        resource action ctx = true)
    ∧ ((∃ r ∈ relevantRules policyRules resource action,
          r.effect = "deny" ∧ evaluateCondition attributes r.condition vals ctx = true) →
      (∀ r ∈ relevantRules policyRules resource action,
          evaluateCondition attributes r.condition vals ctx = true → r.effect = "deny") →
      evaluate roles attributes policyRules defaultEffect "allApplicable" userRoleIds vals
        resource action ctx = false) := by
  have e1 : (("allApplicable" : String) == "firstApplicable") = false := rfl
  have e2 : (("allApplicable" : String) == "allApplicable") = true := rfl
  have hred : evaluate roles attributes policyRules defaultEffect "allApplicable" userRoleIds
      vals resource action ctx
      = evaluateAllApplicable attributes defaultEffect
          (relevantRules policyRules resource action) vals ctx := by
    simp only [evaluate, hwild, hgate, hne, Bool.not_true, Bool.false_eq_true, if_false,
      evaluatePolicyRules, e1, e2, if_true]
  refine ⟨?_, ?_, ?_, ?_⟩
  · rintro ⟨r1, hm1, he1, hc1⟩ ⟨r2, hm2, he2, hc2⟩
    have hin1 : r1 ∈ matchedRules attributes (relevantRules policyRules resource action)
        vals ctx := List.mem_filter.mpr ⟨hm1, hc1⟩
    have hin2 : r2 ∈ matchedRules attributes (relevantRules policyRules resource action)
        vals ctx := List.mem_filter.mpr ⟨hm2, hc2⟩
    have hmne : (matchedRules attributes (relevantRules policyRules resource action)
        vals ctx).isEmpty = false := by
      cases he : (matchedRules attributes (relevantRules policyRules resource action)
          vals ctx).isEmpty with
      | false => rfl
      | true => rw [List.isEmpty_iff] at he; rw [he] at hin1; cases hin1
    have ha : (matchedRules attributes (relevantRules policyRules resource action)
        vals ctx).any (fun rule => rule.effect == "allow") = true :=
      List.any_eq_true.mpr ⟨r1, hin1, by rw [he1]; rfl⟩
    have hd : (matchedRules attributes (relevantRules policyRules resource action)
        vals ctx).any (fun rule => rule.effect == "deny") = true :=
      List.any_eq_true.mpr ⟨r2, hin2, by rw [he2]; rfl⟩
    rw [hred]
    simp only [evaluateAllApplicable, hhack, hmne, ha, hd, Bool.and_self, Bool.false_eq_true,
      if_false, if_true, Bool.and_true, Bool.true_and]
  · intro hnone
    have hmnil : matchedRules attributes (relevantRules policyRules resource action)
        vals ctx = [] := by
      rw [matchedRules, List.filter_eq_nil_iff]
      intro r hr
      rw [hnone r hr]
      simp
    rw [hred]
    simp only [evaluateAllApplicable, hhack, hmnil, List.isEmpty_nil, if_true,
      Bool.false_eq_true, if_false]
  · rintro ⟨r1, hm1, he1, hc1⟩ hall
    have hin1 : r1 ∈ matchedRules attributes (relevantRules policyRules resource action)
        vals ctx := List.mem_filter.mpr ⟨hm1, hc1⟩
    have hmne : (matchedRules attributes (relevantRules policyRules resource action)
        vals ctx).isEmpty = false := by
      cases he : (matchedRules attributes (relevantRules policyRules resource action)
          vals ctx).isEmpty with
      | false => rfl
      | true => rw [List.isEmpty_iff] at he; rw [he] at hin1; cases hin1
    have ha : (matchedRules attributes (relevantRules policyRules resource action)
        vals ctx).any (fun rule => rule.effect == "allow") = true :=
      List.any_eq_true.mpr ⟨r1, hin1, by rw [he1]; rfl⟩
    have hd : (matchedRules attributes (relevantRules policyRules resource action)
        vals ctx).any (fun rule => rule.effect == "deny") = false := by
      rw [List.any_eq_false]
      intro r hr
      rcases List.mem_filter.mp hr with ⟨hrel, hcond⟩
      rw [hall r hrel hcond]
      simp
    rw [hred]
    simp only [evaluateAllApplicable, hhack, hmne, ha, hd, Bool.and_false, Bool.false_eq_true,
      if_false, if_true]
  · rintro ⟨r1, hm1, he1, hc1⟩ hall
    have hin1 : r1 ∈ matchedRules attributes (relevantRules policyRules resource action)
        vals ctx := List.mem_filter.mpr ⟨hm1, hc1⟩
    have hmne : (matchedRules attributes (relevantRules policyRules resource action)
        vals ctx).isEmpty = false := by
      cases he : (matchedRules attributes (relevantRules policyRules resource action)
          vals ctx).isEmpty with
      | false => rfl
      | true => rw [List.isEmpty_iff] at he; rw [he] at hin1; cases hin1
    have ha : (matchedRules attributes (relevantRules policyRules resource action)
        vals ctx).any (fun rule => rule.effect == "allow") = false := by
      rw [List.any_eq_false]
      intro r hr
      rcases List.mem_filter.mp hr with ⟨hrel, hcond⟩
      rw [hall r hrel hcond]
      simp
    rw [hred]
    simp only [evaluateAllApplicable, hhack, hmne, ha, Bool.false_and, Bool.false_eq_true,
      if_false]

/-- C2 (witness): a concrete allow/deny conflict under allApplicable resolves
to false for a gate-passing, wildcard-free user. -/
theorem claim2_allApplicable_witness :
    evaluate [("editor", ⟨"role_editor", ["posts:read"]⟩)] []
      [⟨"p1", "posts", "read", [], "allow"⟩, ⟨"p2", "posts", "read", [], "deny"⟩]
      "deny" "allApplicable" ["role_editor"] [] "posts" "read" [] = false :=
  (claim2_allApplicable_amended [("editor", ⟨"role_editor", ["posts:read"]⟩)] []
      [⟨"p1", "posts", "read", [], "allow"⟩, ⟨"p2", "posts", "read", [], "deny"⟩]
      "deny" ["role_editor"] [] "posts" "read" [] rfl rfl rfl rfl).1
    ⟨⟨"p1", "posts", "read", [], "allow"⟩, List.mem_cons_self _ _, rfl, rfl⟩
    ⟨⟨"p2", "posts", "read", [], "deny"⟩,
      List.mem_cons_of_mem _ (List.mem_singleton.mpr rfl), rfl, rfl⟩

/-! Cache lemmas. -/

namespace CacheManager

theorem mapGet_mapSet_self {α : Type} (cache : CacheMap α) (k : String) (e : CacheEntry α) :
    mapGet (mapSet cache k e) k = some e := by
  induction cache with
  | nil => simp [mapSet, mapGet, List.find?]
  | cons kv rest ih =>
    rw [mapSet]
    cases hk : (kv.1 == k) with
    | true => simp [mapGet, List.find?]
    | false =>
      simp only [hk, Bool.false_eq_true, if_false]
      rw [mapGet, List.find?, hk]
      exact ih

theorem mapGet_mapDelete_self {α : Type} (cache : CacheMap α) (k : String) :
    mapGet (mapDelete cache k) k = none := by
  rw [mapGet, mapDelete]
  cases hf : (cache.filter (fun kv => !(kv.1 == k))).find? (fun kv => kv.1 == k) with
  | none => rfl
  | some kv =>
    have h1 := List.find?_some hf
    have h2 := List.mem_of_find?_eq_some hf
    rcases List.mem_filter.mp h2 with ⟨_, hkeep⟩
    rw [h1] at hkeep
    cases hkeep

end CacheManager

open CacheManager

/-- C8: after a `set`, a `get` strictly past the expiration timestamp
`T + ttl*1000` (per-write override or configured default) reports not-found
and evicts the entry; a `get` strictly before the timestamp returns the stored
value; and in any cache state, a successful `get` implies the entry had not
expired — an entry is never returned past its expiration. -/
theorem claim8_cacheTTL {α : Type} (config : CacheConfig) (cache : CacheMap α) (k : String)
    (v : α) (customTtl : Option Int) (T Tlate Tearly : Int) (hen : config.enabled = true) :
    (Tlate > T + (customTtl.getD config.ttl) * 1000 →
      (cacheGet config (cacheSet config cache k v customTtl T) k Tlate).1 = none
      ∧ mapGet (cacheGet config (cacheSet config cache k v customTtl T) k Tlate).2 k = none)
    ∧ (Tearly < T + (customTtl.getD config.ttl) * 1000 →
      (cacheGet config (cacheSet config cache k v customTtl T) k Tearly).1 = some v)
    ∧ (∀ (c : CacheMap α) (now : Int) (x : α), (cacheGet config c k now).1 = some x →
      ∃ e, mapGet c k = some e ∧ e.value = x ∧ now ≤ e.expires) := by
  have hset : cacheSet config cache k v customTtl T
      = mapSet cache k ⟨v, T + (customTtl.getD config.ttl) * 1000⟩ := by
    simp [cacheSet, hen]
  have hget := mapGet_mapSet_self cache k
    (⟨v, T + (customTtl.getD config.ttl) * 1000⟩ : CacheEntry α)
  refine ⟨?_, ?_, ?_⟩
  · intro hlate
    constructor
    · simp [hset, cacheGet, hen, hget, hlate]
    · simp [hset, cacheGet, hen, hget, hlate, mapGet_mapDelete_self]
  · intro hearly
    have hnot : ¬ (Tearly > T + (customTtl.getD config.ttl) * 1000) := by omega
    simp [hset, cacheGet, hen, hget, hnot]
  · intro c now x h
    simp only [cacheGet, hen, Bool.not_true, Bool.false_eq_true, if_false] at h
    cases hm : mapGet c k with
    | none => rw [hm] at h; simp at h
    | some e =>
      rw [hm] at h
      by_cases hcmp : now > e.expires
      · simp [hcmp] at h
      · simp [hcmp] at h
        exact ⟨e, rfl, h, by omega⟩

/-- C8 (witness): with a one-second TTL written at time 0, a read at 1500ms
misses and a read at 500ms returns the value. -/
theorem claim8_cacheTTL_witness :
    (cacheGet ⟨true, 1⟩ (cacheSet ⟨true, 1⟩ ([] : CacheMap Nat) "k" 7 none 0) "k" 1500).1 = none
    ∧ (cacheGet ⟨true, 1⟩ (cacheSet ⟨true, 1⟩ ([] : CacheMap Nat) "k" 7 none 0) "k" 500).1
        = some 7 :=
  ⟨((claim8_cacheTTL ⟨true, 1⟩ [] "k" 7 none 0 1500 500 rfl).1 (by decide)).1,
   (claim8_cacheTTL ⟨true, 1⟩ [] "k" 7 none 0 1500 500 rfl).2.1 (by decide)⟩

end HBAC
